import Mathlib

/-!
Verification of the `echo` Solana program (`src/program/src/{processor,state,error}.rs`).

The program is embedded shallowly:
* machine integers are `Nat` (serialized fields carry explicit bounds such as
  `< 256 ^ 8` for a `u64`);
* byte buffers are `List Nat` whose elements are intended to lie below 256;
* each instruction arm of `Processor::process_instruction` is a Lean function
  from the accounts/oracles it touches to an `Outcome`, where `Outcome.panicked`
  records a Rust panic (slice-length mismatch in `copy_from_slice`, or integer
  underflow in a `usize` subtraction) as opposed to an `Err` return;
* cross-program invocations (`create_account`, `spl_token::burn`) and the
  SHA256-based address derivations (`find_program_address`,
  `create_program_address`) are oracles passed in as parameters, since their
  results are opaque to this program's logic.
-/

/-- A 32-byte Solana public key, kept as its raw byte list. -/
abbrev Pubkey := List Nat

/-- The subset of `solana_program::program_error::ProgramError` this program uses.
`custom n` is `ProgramError::Custom(n)`, the image of `EchoError`;
`borshIoError` stands for `ProgramError::BorshIoError` produced when a borsh
(de)serialization fails and is propagated with `?`. -/
inductive ProgramError : Type where
  | invalidInstructionData : ProgramError
  | invalidArgument : ProgramError
  | borshIoError : ProgramError
  | custom (code : Nat) : ProgramError
deriving DecidableEq, Repr

/-- `EchoError` from `src/program/src/error.rs`, in declaration order. -/
inductive EchoError : Type where
  | notImplemented : EchoError
  | nonZeroData : EchoError
  | authorityNotSigner : EchoError
  | invalidAuthority : EchoError
  | invalidAuthorizedBuffer : EchoError
deriving DecidableEq, Repr

/-- The discriminant of `EchoError` (`e as u32` in the source `From` impl). -/
def EchoError.toCode : EchoError → Nat
  | .notImplemented => 0
  | .nonZeroData => 1
  | .authorityNotSigner => 2
  | .invalidAuthority => 3
  | .invalidAuthorizedBuffer => 4

/-- `From<EchoError> for ProgramError`: `ProgramError::Custom(e as u32)`. -/
def EchoError.toProgramError (e : EchoError) : ProgramError :=
  ProgramError.custom e.toCode

/-- Result of running one instruction arm. `panicked` marks a Rust panic
(which aborts the transaction without returning a `ProgramError`). -/
inductive Outcome (α : Type) : Type where
  | ok (val : α) : Outcome α
  | err (e : ProgramError) : Outcome α
  | panicked : Outcome α
deriving DecidableEq, Repr

/-! ### Little-endian byte encoding (borsh integer layout) -/

/-- The `n`-byte little-endian encoding of `x` (borsh integer layout). -/
def natToLEBytes : Nat → Nat → List Nat
  | 0, _ => []
  | n + 1, x => x % 256 :: natToLEBytes n (x / 256)

/-- Read a little-endian byte list back into a number. -/
def leBytesToNat : List Nat → Nat
  | [] => 0
  | b :: bs => b + 256 * leBytesToNat bs

/-! ### Borsh parsers over byte lists -/

/-- Read exactly `n` bytes, returning them and the remainder. -/
def readBytes (n : Nat) (bs : List Nat) : Option (List Nat × List Nat) :=
  if n ≤ bs.length then some (bs.take n, bs.drop n) else none

/-- Borsh `u8`: one byte. -/
def parseU8 : List Nat → Option (Nat × List Nat)
  | [] => none
  | b :: rest => some (b, rest)

/-- Borsh `u32`: four little-endian bytes. -/
def parseU32 (bs : List Nat) : Option (Nat × List Nat) :=
  match readBytes 4 bs with
  | some (c, r) => some (leBytesToNat c, r)
  | none => none

/-- Borsh `u64`: eight little-endian bytes. -/
def parseU64 (bs : List Nat) : Option (Nat × List Nat) :=
  match readBytes 8 bs with
  | some (c, r) => some (leBytesToNat c, r)
  | none => none

/-- Borsh `Vec<u8>`: a `u32` length prefix followed by that many raw bytes. -/
def parseVecU8 (bs : List Nat) : Option (List Nat × List Nat) :=
  match parseU32 bs with
  | some (n, r) => readBytes n r
  | none => none

/-- Borsh `Pubkey`: 32 raw bytes. -/
def parsePubkey (bs : List Nat) : Option (Pubkey × List Nat) :=
  readBytes 32 bs

/-! ### Account-state records (`src/program/src/state.rs`) -/

/-- `AuthorizedBufferHeader` from `state.rs`. -/
structure AuthorizedBufferHeader : Type where
  bump_seed : Nat
  buffer_seed : Nat
  echo_data : List Nat
deriving DecidableEq, Repr

/-- Borsh serialization of `AuthorizedBufferHeader`:
`[bump_seed:u8][buffer_seed:u64][len:u32][echo_data]`. -/
def AuthorizedBufferHeader.serialize (h : AuthorizedBufferHeader) : List Nat :=
  h.bump_seed :: (natToLEBytes 8 h.buffer_seed ++
    (natToLEBytes 4 h.echo_data.length ++ h.echo_data))

/-- Borsh deserialization of `AuthorizedBufferHeader`. -/
def AuthorizedBufferHeader.deserialize (bs : List Nat) :
    Option (AuthorizedBufferHeader × List Nat) :=
  match parseU8 bs with
  | none => none
  | some (b, r1) =>
    match parseU64 r1 with
    | none => none
    | some (s, r2) =>
      match parseVecU8 r2 with
      | none => none
      | some (d, r3) => some (⟨b, s, d⟩, r3)

/-- `BorshDeserialize::try_from_slice`: deserialize and require that the whole
slice is consumed. -/
def AuthorizedBufferHeader.tryFromSlice (bs : List Nat) :
    Option AuthorizedBufferHeader :=
  match AuthorizedBufferHeader.deserialize bs with
  | some (h, r) => if r = [] then some h else none
  | none => none

/-- `VendingMachineBufferHeader` from `state.rs`. -/
structure VendingMachineBufferHeader : Type where
  bump_seed : Nat
  price : Nat
  vending_machine_mint : Pubkey
  echo_data : List Nat
deriving DecidableEq, Repr

/-- Borsh serialization of `VendingMachineBufferHeader`:
`[bump_seed:u8][price:u64][mint:32 bytes][len:u32][echo_data]`. -/
def VendingMachineBufferHeader.serialize (h : VendingMachineBufferHeader) : List Nat :=
  h.bump_seed :: (natToLEBytes 8 h.price ++
    (h.vending_machine_mint ++
      (natToLEBytes 4 h.echo_data.length ++ h.echo_data)))

/-- Borsh deserialization of `VendingMachineBufferHeader`. -/
def VendingMachineBufferHeader.deserialize (bs : List Nat) :
    Option (VendingMachineBufferHeader × List Nat) :=
  match parseU8 bs with
  | none => none
  | some (b, r1) =>
    match parseU64 r1 with
    | none => none
    | some (p, r2) =>
      match parsePubkey r2 with
      | none => none
      | some (m, r3) =>
        match parseVecU8 r3 with
        | none => none
        | some (d, r4) => some (⟨b, p, m, d⟩, r4)

/-- `BorshDeserialize::try_from_slice` for `VendingMachineBufferHeader`. -/
def VendingMachineBufferHeader.tryFromSlice (bs : List Nat) :
    Option VendingMachineBufferHeader :=
  match VendingMachineBufferHeader.deserialize bs with
  | some (h, r) => if r = [] then some h else none
  | none => none

/-- `BorshSerialize::serialize(&mut *account_data)`: `io::Write` into a fixed
byte slice succeeds iff the encoding fits, leaving any tail bytes unchanged;
on overflow borsh reports an `io` error that `?` converts to
`ProgramError::BorshIoError`. -/
def serializeIntoBuffer (enc buf : List Nat) : Outcome (List Nat) :=
  if enc.length ≤ buf.length then Outcome.ok (enc ++ buf.drop enc.length)
  else Outcome.err ProgramError.borshIoError

/-! ### Instruction wire format -/

/-- Modelled from the spec: `src/program/src/instruction.rs` (the
`EchoInstruction` enum that `processor.rs` imports) is not in the repository
snapshot. Spec section 6 gives the five variants and their fields; the
`buffer_size` fields are `usize` in the callers, serialized as 8 bytes. -/
inductive EchoInstruction : Type where
  | echo (data : List Nat) : EchoInstruction
  | initializeAuthorizedEcho (buffer_seed buffer_size : Nat) : EchoInstruction
  | authorizedEcho (data : List Nat) : EchoInstruction
  | initializeVendingMachineEcho (price buffer_size : Nat) : EchoInstruction
  | vendingMachineEcho (data : List Nat) : EchoInstruction
deriving DecidableEq, Repr

/-- Modelled from the spec: borsh encoding of `EchoInstruction` — a one-byte
discriminant 0–4 followed by the fields (little-endian integers,
length-prefixed byte vectors), per the wire-format table in spec section 6. -/
def encodeInstruction : EchoInstruction → List Nat
  | .echo d => 0 :: (natToLEBytes 4 d.length ++ d)
  | .initializeAuthorizedEcho s z => 1 :: (natToLEBytes 8 s ++ natToLEBytes 8 z)
  | .authorizedEcho d => 2 :: (natToLEBytes 4 d.length ++ d)
  | .initializeVendingMachineEcho p z => 3 :: (natToLEBytes 8 p ++ natToLEBytes 8 z)
  | .vendingMachineEcho d => 4 :: (natToLEBytes 4 d.length ++ d)

/-- Modelled from the spec: `EchoInstruction::try_from_slice` — borsh decoding
of the instruction, failing on a truncated buffer, an unknown discriminant, or
trailing bytes. -/
def decodeInstruction (bs : List Nat) : Option EchoInstruction :=
  match bs with
  | [] => none
  | tag :: rest =>
    if tag = 0 then
      match parseVecU8 rest with
      | some (d, r) => if r = [] then some (.echo d) else none
      | none => none
    else if tag = 1 then
      match parseU64 rest with
      | some (s, r1) =>
        match parseU64 r1 with
        | some (z, r) => if r = [] then some (.initializeAuthorizedEcho s z) else none
        | none => none
      | none => none
    else if tag = 2 then
      match parseVecU8 rest with
      | some (d, r) => if r = [] then some (.authorizedEcho d) else none
      | none => none
    else if tag = 3 then
      match parseU64 rest with
      | some (p, r1) =>
        match parseU64 r1 with
        | some (z, r) => if r = [] then some (.initializeVendingMachineEcho p z) else none
        | none => none
      | none => none
    else if tag = 4 then
      match parseVecU8 rest with
      | some (d, r) => if r = [] then some (.vendingMachineEcho d) else none
      | none => none
    else none

/-! ### Instruction arms of `Processor::process_instruction` (`processor.rs`) -/

/-- The `Echo { data }` arm (processor.rs:49–72). The account's byte buffer is
`echoBufferData`. A zero-length account and a non-zero byte both yield
`EchoError::NonZeroData`. The copy branch for a buffer strictly longer than
`data` calls `copy_from_slice(&data)` with mismatched slice lengths, a Rust
panic; the other branch copies `data[..echo_len]`. -/
def processEcho (echoBufferData data : List Nat) : Outcome (List Nat) :=
  if echoBufferData.length = 0 then
    Outcome.err EchoError.nonZeroData.toProgramError
  else if echoBufferData.any (fun b => b ≠ 0) then
    Outcome.err EchoError.nonZeroData.toProgramError
  else if data.length < echoBufferData.length then
    Outcome.panicked
  else
    Outcome.ok (data.take echoBufferData.length)

/-- The `InitializeAuthorizedEcho { buffer_seed, buffer_size }` arm
(processor.rs:75–130). `findProgAddr` is the result of
`Pubkey::find_program_address(["authority", authority.key, buffer_seed],
program_id)`; `createAccountResult` the result of the `create_account` CPI.
`buffer_size - 9 - 4` is a `usize` subtraction: below 13 it underflows and the
`vec![0; …]` allocation panics rather than returning an error. -/
def processInitializeAuthorizedEcho (authorizedBufferKey : Pubkey)
    (authorityIsSigner : Bool) (findProgAddr : Pubkey × Nat)
    (createAccountResult : Except ProgramError Unit)
    (buffer_seed buffer_size : Nat) : Outcome (List Nat) :=
  if ¬ authorityIsSigner then
    Outcome.err EchoError.authorityNotSigner.toProgramError
  else
    let key := findProgAddr.1
    let bump_seed := findProgAddr.2
    if key ≠ authorizedBufferKey then
      Outcome.err EchoError.invalidAuthorizedBuffer.toProgramError
    else
      match createAccountResult with
      | .error e => Outcome.err e
      | .ok _ =>
        if buffer_size < 9 + 4 then Outcome.panicked
        else
          let echo_data := List.replicate (buffer_size - 9 - 4) 0
          let buffer_data : AuthorizedBufferHeader :=
            ⟨bump_seed, buffer_seed, echo_data⟩
          serializeIntoBuffer buffer_data.serialize (List.replicate buffer_size 0)

/-- The `AuthorizedEcho { data }` arm (processor.rs:133–164). `createProgAddr`
maps the stored `(buffer_seed, bump_seed)` to the result of
`Pubkey::create_program_address(["authority", authority.key, buffer_seed,
[bump_seed]], program_id)`. `echo_data.fill(0)` then
`copy_from_slice(&data[..min_of_len])` into the whole `echo_data` slice
panics whenever `min_of_len ≠ echo_data.len()`, i.e. when `data` is shorter
than `echo_data`. -/
def processAuthorizedEcho (authorizedBufferKey : Pubkey)
    (authorizedBufferData : List Nat) (authorityIsSigner : Bool)
    (createProgAddr : Nat → Nat → Except ProgramError Pubkey)
    (data : List Nat) : Outcome (List Nat) :=
  if ¬ authorityIsSigner then
    Outcome.err EchoError.authorityNotSigner.toProgramError
  else
    match AuthorizedBufferHeader.tryFromSlice authorizedBufferData with
    | none => Outcome.err ProgramError.borshIoError
    | some buffer_data =>
      match createProgAddr buffer_data.buffer_seed buffer_data.bump_seed with
      | .error e => Outcome.err e
      | .ok key =>
        if key ≠ authorizedBufferKey then
          Outcome.err EchoError.invalidAuthority.toProgramError
        else
          let zeroed := List.replicate buffer_data.echo_data.length 0
          let min_of_len := min buffer_data.echo_data.length data.length
          if min_of_len ≠ zeroed.length then Outcome.panicked
          else
            serializeIntoBuffer
              (AuthorizedBufferHeader.serialize
                ⟨buffer_data.bump_seed, buffer_data.buffer_seed, data.take min_of_len⟩)
              authorizedBufferData

/-- The `InitializeVendingMachineEcho { price, buffer_size }` arm
(processor.rs:166–219). `findProgAddr` is
`Pubkey::find_program_address(["vending_machine", mint.key, price],
program_id)`. The reserved data length is `buffer_size - 1 - 8 - 4 - 4`
(underflowing below 17), although the serialized record additionally holds the
32-byte mint key. -/
def processInitializeVendingMachineEcho (vendingMachineBufferKey : Pubkey)
    (vendingMachineMintKey : Pubkey) (payerIsSigner : Bool)
    (vendingBufferIsWritable : Bool) (findProgAddr : Pubkey × Nat)
    (createAccountResult : Except ProgramError Unit)
    (price buffer_size : Nat) : Outcome (List Nat) :=
  if ¬ payerIsSigner then
    Outcome.err EchoError.authorityNotSigner.toProgramError
  else if ¬ vendingBufferIsWritable then
    Outcome.err ProgramError.invalidArgument
  else
    let key := findProgAddr.1
    let bump_seed := findProgAddr.2
    if key ≠ vendingMachineBufferKey then
      Outcome.err EchoError.invalidAuthorizedBuffer.toProgramError
    else
      match createAccountResult with
      | .error e => Outcome.err e
      | .ok _ =>
        if buffer_size < 1 + 8 + 4 + 4 then Outcome.panicked
        else
          let echo_data := List.replicate (buffer_size - 1 - 8 - 4 - 4) 0
          let buffer_data : VendingMachineBufferHeader :=
            ⟨bump_seed, price, vendingMachineMintKey, echo_data⟩
          serializeIntoBuffer buffer_data.serialize (List.replicate buffer_size 0)

/-- The `VendingMachineEcho { data }` arm (processor.rs:222–272).
`createProgAddr` maps the stored `(price, bump_seed)` to
`Pubkey::create_program_address(["vending_machine", mint.key, price,
[bump_seed]], program_id)`; `burnResult` is the result of the
`spl_token::burn` CPI. As in `AuthorizedEcho`, the copy into the whole
`echo_data` slice panics when `data` is shorter than `echo_data`. -/
def processVendingMachineEcho (vendingMachineBufferKey : Pubkey)
    (vendingMachineBufferData : List Nat) (userIsSigner : Bool)
    (vendingBufferIsWritable userTokenIsWritable mintIsWritable : Bool)
    (createProgAddr : Nat → Nat → Except ProgramError Pubkey)
    (burnResult : Except ProgramError Unit) (data : List Nat) :
    Outcome (List Nat) :=
  if ¬ userIsSigner then
    Outcome.err EchoError.authorityNotSigner.toProgramError
  else if ¬ vendingBufferIsWritable then
    Outcome.err ProgramError.invalidArgument
  else if ¬ userTokenIsWritable then
    Outcome.err ProgramError.invalidArgument
  else if ¬ mintIsWritable then
    Outcome.err ProgramError.invalidArgument
  else
    match VendingMachineBufferHeader.tryFromSlice vendingMachineBufferData with
    | none => Outcome.err ProgramError.borshIoError
    | some vending_buffer =>
      match createProgAddr vending_buffer.price vending_buffer.bump_seed with
      | .error e => Outcome.err e
      | .ok key =>
        if key ≠ vendingMachineBufferKey then
          Outcome.err EchoError.invalidAuthority.toProgramError
        else
          match burnResult with
          | .error e => Outcome.err e
          | .ok _ =>
            let zeroed := List.replicate vending_buffer.echo_data.length 0
            let min_of_len := min vending_buffer.echo_data.length data.length
            if min_of_len ≠ zeroed.length then Outcome.panicked
            else
              serializeIntoBuffer
                (VendingMachineBufferHeader.serialize
                  ⟨vending_buffer.bump_seed, vending_buffer.price,
                    vending_buffer.vending_machine_mint, data.take min_of_len⟩)
                vendingMachineBufferData

/-- Everything `process_instruction` reads besides `instruction_data`: the
account metadata/contents each arm consumes and the results of the oracles
(address derivations and cross-program invocations). -/
structure ProcessorEnv : Type where
  echoBufferData : List Nat
  iaBufferKey : Pubkey
  iaAuthorityIsSigner : Bool
  iaFindProgAddr : Nat → Pubkey × Nat
  iaCreateAccountResult : Except ProgramError Unit
  aeBufferKey : Pubkey
  aeBufferData : List Nat
  aeAuthorityIsSigner : Bool
  aeCreateProgAddr : Nat → Nat → Except ProgramError Pubkey
  ivBufferKey : Pubkey
  ivMintKey : Pubkey
  ivPayerIsSigner : Bool
  ivBufferIsWritable : Bool
  ivFindProgAddr : Nat → Pubkey × Nat
  ivCreateAccountResult : Except ProgramError Unit
  veBufferKey : Pubkey
  veBufferData : List Nat
  veUserIsSigner : Bool
  veBufferIsWritable : Bool
  veUserTokenIsWritable : Bool
  veMintIsWritable : Bool
  veCreateProgAddr : Nat → Nat → Except ProgramError Pubkey
  veBurnResult : Except ProgramError Unit

/-- `Processor::process_instruction` (processor.rs:40–275): decode the
instruction — mapping a decode failure to
`ProgramError::InvalidInstructionData` before any account is read — then
dispatch to the matching arm. -/
def process_instruction (env : ProcessorEnv) (instruction_data : List Nat) :
    Outcome (List Nat) :=
  match decodeInstruction instruction_data with
  | none => Outcome.err ProgramError.invalidInstructionData
  | some i =>
    match i with
    | .echo data => processEcho env.echoBufferData data
    | .initializeAuthorizedEcho buffer_seed buffer_size =>
        processInitializeAuthorizedEcho env.iaBufferKey env.iaAuthorityIsSigner
          (env.iaFindProgAddr buffer_seed) env.iaCreateAccountResult
          buffer_seed buffer_size
    | .authorizedEcho data =>
        processAuthorizedEcho env.aeBufferKey env.aeBufferData
          env.aeAuthorityIsSigner env.aeCreateProgAddr data
    | .initializeVendingMachineEcho price buffer_size =>
        processInitializeVendingMachineEcho env.ivBufferKey env.ivMintKey
          env.ivPayerIsSigner env.ivBufferIsWritable (env.ivFindProgAddr price)
          env.ivCreateAccountResult price buffer_size
    | .vendingMachineEcho data =>
        processVendingMachineEcho env.veBufferKey env.veBufferData
          env.veUserIsSigner env.veBufferIsWritable env.veUserTokenIsWritable
          env.veMintIsWritable env.veCreateProgAddr env.veBurnResult data

/-- A concrete environment used to evaluate `process_instruction` at
concrete inputs. -/
def sampleEnv : ProcessorEnv :=
  ⟨[], [], true, fun _ => ([], 0), Except.ok (),
   [], [], true, fun _ _ => Except.ok [],
   [], [], true, true, fun _ => ([], 0), Except.ok (),
   [], [], true, true, true, true, fun _ _ => Except.ok [], Except.ok ()⟩

/-! ### Properties of the codec and the processor -/

theorem length_natToLEBytes (n x : Nat) : (natToLEBytes n x).length = n := by
  induction n generalizing x with
  | zero => rfl
  | succ n ih => simp [natToLEBytes, ih]

theorem mem_natToLEBytes_lt (n x : Nat) : ∀ b ∈ natToLEBytes n x, b < 256 := by
  induction n generalizing x with
  | zero => intro b hb; simp [natToLEBytes] at hb
  | succ n ih =>
    intro b hb
    simp only [natToLEBytes, List.mem_cons] at hb
    rcases hb with h | h
    · omega
    · exact ih _ b h

theorem leBytesToNat_natToLEBytes (n x : Nat) (h : x < 256 ^ n) :
    leBytesToNat (natToLEBytes n x) = x := by
  induction n generalizing x with
  | zero => simp [natToLEBytes, leBytesToNat]; omega
  | succ n ih =>
    have hdiv : x / 256 < 256 ^ n := by
      rw [Nat.div_lt_iff_lt_mul (by omega)]
      calc x < 256 ^ (n + 1) := h
        _ = 256 ^ n * 256 := by ring
    simp [natToLEBytes, leBytesToNat, ih _ hdiv]
    omega

theorem natToLEBytes_leBytesToNat (bs : List Nat) (hwf : ∀ b ∈ bs, b < 256) :
    natToLEBytes bs.length (leBytesToNat bs) = bs := by
  induction bs with
  | nil => rfl
  | cons b bs ih =>
    have hb : b < 256 := hwf b (List.mem_cons_self b bs)
    have htail : ∀ c ∈ bs, c < 256 := fun c hc => hwf c (List.mem_cons_of_mem b hc)
    simp only [List.length_cons, natToLEBytes, leBytesToNat]
    have hmod : (b + 256 * leBytesToNat bs) % 256 = b := by omega
    have hdiv : (b + 256 * leBytesToNat bs) / 256 = leBytesToNat bs := by omega
    rw [hmod, hdiv, ih htail]

theorem leBytesToNat_lt (bs : List Nat) (hwf : ∀ b ∈ bs, b < 256) :
    leBytesToNat bs < 256 ^ bs.length := by
  induction bs with
  | nil => simp [leBytesToNat]
  | cons b bs ih =>
    have hb : b < 256 := hwf b (List.mem_cons_self b bs)
    have htail : ∀ c ∈ bs, c < 256 := fun c hc => hwf c (List.mem_cons_of_mem b hc)
    have hlt := ih htail
    simp only [leBytesToNat, List.length_cons, pow_succ]
    calc b + 256 * leBytesToNat bs < 256 * (leBytesToNat bs + 1) := by omega
      _ ≤ 256 * 256 ^ bs.length := Nat.mul_le_mul_left 256 hlt
      _ = 256 ^ bs.length * 256 := by ring

theorem readBytes_sound {n : Nat} {bs c r : List Nat}
    (h : readBytes n bs = some (c, r)) : bs = c ++ r ∧ c.length = n := by
  unfold readBytes at h
  split at h
  · rename_i hle
    injection h with h'
    injection h' with hc hr
    subst hc; subst hr
    exact ⟨(List.take_append_drop n bs).symm, List.length_take_of_le hle⟩
  · exact absurd h (by simp)

theorem readBytes_append {n : Nat} {c : List Nat} (r : List Nat)
    (h : c.length = n) : readBytes n (c ++ r) = some (c, r) := by
  subst h
  unfold readBytes
  rw [if_pos (by simp)]
  rw [List.take_left, List.drop_left]

theorem parseU64_sound {bs r : List Nat} {x : Nat}
    (hwf : ∀ b ∈ bs, b < 256) (h : parseU64 bs = some (x, r)) :
    bs = natToLEBytes 8 x ++ r ∧ x < 256 ^ 8 := by
  unfold parseU64 at h
  cases hr : readBytes 8 bs with
  | none => rw [hr] at h; exact absurd h (by simp)
  | some cr =>
    obtain ⟨c, r'⟩ := cr
    rw [hr] at h
    injection h with h'
    injection h' with hx hrr
    subst hx; subst hrr
    obtain ⟨hsplit, hlen⟩ := readBytes_sound hr
    have hcwf : ∀ b ∈ c, b < 256 := fun b hb => hwf b (hsplit ▸ List.mem_append_left _ hb)
    have henc : natToLEBytes 8 (leBytesToNat c) = c := by
      have := natToLEBytes_leBytesToNat c hcwf
      rwa [hlen] at this
    have hbound : leBytesToNat c < 256 ^ 8 := by
      have := leBytesToNat_lt c hcwf
      rwa [hlen] at this
    exact ⟨by rw [henc]; exact hsplit, hbound⟩

theorem parseU32_sound {bs r : List Nat} {x : Nat}
    (hwf : ∀ b ∈ bs, b < 256) (h : parseU32 bs = some (x, r)) :
    bs = natToLEBytes 4 x ++ r ∧ x < 256 ^ 4 := by
  unfold parseU32 at h
  cases hr : readBytes 4 bs with
  | none => rw [hr] at h; exact absurd h (by simp)
  | some cr =>
    obtain ⟨c, r'⟩ := cr
    rw [hr] at h
    injection h with h'
    injection h' with hx hrr
    subst hx; subst hrr
    obtain ⟨hsplit, hlen⟩ := readBytes_sound hr
    have hcwf : ∀ b ∈ c, b < 256 := fun b hb => hwf b (hsplit ▸ List.mem_append_left _ hb)
    have henc : natToLEBytes 4 (leBytesToNat c) = c := by
      have := natToLEBytes_leBytesToNat c hcwf
      rwa [hlen] at this
    have hbound : leBytesToNat c < 256 ^ 4 := by
      have := leBytesToNat_lt c hcwf
      rwa [hlen] at this
    exact ⟨by rw [henc]; exact hsplit, hbound⟩

theorem parseVecU8_sound {bs d r : List Nat}
    (hwf : ∀ b ∈ bs, b < 256) (h : parseVecU8 bs = some (d, r)) :
    bs = natToLEBytes 4 d.length ++ (d ++ r) ∧ d.length < 256 ^ 4 := by
  unfold parseVecU8 at h
  cases hn : parseU32 bs with
  | none => rw [hn] at h; exact absurd h (by simp)
  | some nr =>
    obtain ⟨n, r1⟩ := nr
    rw [hn] at h
    obtain ⟨hsplit1, hbound⟩ := parseU32_sound hwf hn
    obtain ⟨hsplit2, hlen⟩ := readBytes_sound h
    subst hlen
    exact ⟨by rw [hsplit1, hsplit2], hbound⟩

theorem authHeader_length_serialize (h : AuthorizedBufferHeader) :
    h.serialize.length = 13 + h.echo_data.length := by
  simp [AuthorizedBufferHeader.serialize, length_natToLEBytes]
  omega

theorem vmHeader_length_serialize (h : VendingMachineBufferHeader) :
    h.serialize.length = 13 + h.vending_machine_mint.length + h.echo_data.length := by
  simp [VendingMachineBufferHeader.serialize, length_natToLEBytes]
  omega

theorem authHeader_roundtrip (h : AuthorizedBufferHeader)
    (hseed : h.buffer_seed < 256 ^ 8) (hlen : h.echo_data.length < 256 ^ 4) :
    AuthorizedBufferHeader.tryFromSlice h.serialize = some h := by
  obtain ⟨b, s, d⟩ := h
  simp only [AuthorizedBufferHeader.serialize] at *
  have h64 : parseU64 (natToLEBytes 8 s ++ (natToLEBytes 4 d.length ++ d)) =
      some (s, natToLEBytes 4 d.length ++ d) := by
    unfold parseU64
    rw [readBytes_append _ (length_natToLEBytes 8 s)]
    simp [leBytesToNat_natToLEBytes 8 s hseed]
  have h32 : parseU32 (natToLEBytes 4 d.length ++ d) = some (d.length, d) := by
    unfold parseU32
    rw [readBytes_append _ (length_natToLEBytes 4 d.length)]
    simp [leBytesToNat_natToLEBytes 4 d.length hlen]
  have hvec : parseVecU8 (natToLEBytes 4 d.length ++ d) = some (d, []) := by
    unfold parseVecU8
    rw [h32]
    simp [readBytes]
  unfold AuthorizedBufferHeader.tryFromSlice AuthorizedBufferHeader.deserialize
  simp only [parseU8, h64, hvec]
  simp

theorem vmHeader_roundtrip (h : VendingMachineBufferHeader)
    (hprice : h.price < 256 ^ 8) (hmint : h.vending_machine_mint.length = 32)
    (hlen : h.echo_data.length < 256 ^ 4) :
    VendingMachineBufferHeader.tryFromSlice h.serialize = some h := by
  obtain ⟨b, p, m, d⟩ := h
  simp only [VendingMachineBufferHeader.serialize] at *
  have h64 : parseU64 (natToLEBytes 8 p ++ (m ++ (natToLEBytes 4 d.length ++ d))) =
      some (p, m ++ (natToLEBytes 4 d.length ++ d)) := by
    unfold parseU64
    rw [readBytes_append _ (length_natToLEBytes 8 p)]
    simp [leBytesToNat_natToLEBytes 8 p hprice]
  have hpk : parsePubkey (m ++ (natToLEBytes 4 d.length ++ d)) =
      some (m, natToLEBytes 4 d.length ++ d) := by
    unfold parsePubkey
    exact readBytes_append _ hmint
  have h32 : parseU32 (natToLEBytes 4 d.length ++ d) = some (d.length, d) := by
    unfold parseU32
    rw [readBytes_append _ (length_natToLEBytes 4 d.length)]
    simp [leBytesToNat_natToLEBytes 4 d.length hlen]
  have hvec : parseVecU8 (natToLEBytes 4 d.length ++ d) = some (d, []) := by
    unfold parseVecU8
    rw [h32]
    simp [readBytes]
  unfold VendingMachineBufferHeader.tryFromSlice VendingMachineBufferHeader.deserialize
  simp only [parseU8, h64, hpk, hvec]
  simp

theorem authHeader_tryFromSlice_sound {bs : List Nat}
    {h : AuthorizedBufferHeader} (hwf : ∀ b ∈ bs, b < 256)
    (hdec : AuthorizedBufferHeader.tryFromSlice bs = some h) :
    bs = h.serialize := by
  unfold AuthorizedBufferHeader.tryFromSlice at hdec
  split at hdec
  case h_2 => exact absurd hdec (by simp)
  case h_1 x h' r hd =>
    split at hdec
    case isFalse => exact absurd hdec (by simp)
    case isTrue hrnil =>
      injection hdec with hh
      subst hh; subst hrnil
      unfold AuthorizedBufferHeader.deserialize at hd
      cases bs with
      | nil => exact absurd hd (by simp [parseU8])
      | cons b r1 =>
        simp only [parseU8] at hd
        cases h64 : parseU64 r1 with
        | none => simp only [h64] at hd; exact absurd hd (by simp)
        | some sr =>
          obtain ⟨s, r2⟩ := sr
          simp only [h64] at hd
          cases hvec : parseVecU8 r2 with
          | none => simp only [hvec] at hd; exact absurd hd (by simp)
          | some dr =>
            obtain ⟨d, r3⟩ := dr
            simp only [hvec] at hd
            injection hd with hd'
            injection hd' with hh hr3
            have hr1wf : ∀ c ∈ r1, c < 256 := fun c hc => hwf c (List.mem_cons_of_mem b hc)
            obtain ⟨hsplit1, _⟩ := parseU64_sound hr1wf h64
            have hr2wf : ∀ c ∈ r2, c < 256 := fun c hc =>
              hr1wf c (hsplit1 ▸ List.mem_append_right _ hc)
            obtain ⟨hsplit2, _⟩ := parseVecU8_sound hr2wf hvec
            subst hh; subst hr3
            simp only [AuthorizedBufferHeader.serialize]
            rw [hsplit1, hsplit2]
            simp

theorem vmHeader_tryFromSlice_sound {bs : List Nat}
    {h : VendingMachineBufferHeader} (hwf : ∀ b ∈ bs, b < 256)
    (hdec : VendingMachineBufferHeader.tryFromSlice bs = some h) :
    bs = h.serialize := by
  unfold VendingMachineBufferHeader.tryFromSlice at hdec
  split at hdec
  case h_2 => exact absurd hdec (by simp)
  case h_1 x h' r hd =>
    split at hdec
    case isFalse => exact absurd hdec (by simp)
    case isTrue hrnil =>
      injection hdec with hh
      subst hh; subst hrnil
      unfold VendingMachineBufferHeader.deserialize at hd
      cases bs with
      | nil => exact absurd hd (by simp [parseU8])
      | cons b r1 =>
        simp only [parseU8] at hd
        cases h64 : parseU64 r1 with
        | none => simp only [h64] at hd; exact absurd hd (by simp)
        | some pr =>
          obtain ⟨p, r2⟩ := pr
          simp only [h64] at hd
          cases hpk : parsePubkey r2 with
          | none => simp only [hpk] at hd; exact absurd hd (by simp)
          | some mr =>
            obtain ⟨m, r3⟩ := mr
            simp only [hpk] at hd
            cases hvec : parseVecU8 r3 with
            | none => simp only [hvec] at hd; exact absurd hd (by simp)
            | some dr =>
              obtain ⟨d, r4⟩ := dr
              simp only [hvec] at hd
              injection hd with hd'
              injection hd' with hh hr4
              have hr1wf : ∀ c ∈ r1, c < 256 := fun c hc => hwf c (List.mem_cons_of_mem b hc)
              obtain ⟨hsplit1, _⟩ := parseU64_sound hr1wf h64
              have hr2wf : ∀ c ∈ r2, c < 256 := fun c hc =>
                hr1wf c (hsplit1 ▸ List.mem_append_right _ hc)
              obtain ⟨hsplit2, _⟩ := readBytes_sound hpk
              have hr3wf : ∀ c ∈ r3, c < 256 := fun c hc =>
                hr2wf c (hsplit2 ▸ List.mem_append_right _ hc)
              obtain ⟨hsplit3, _⟩ := parseVecU8_sound hr3wf hvec
              subst hh; subst hr4
              simp only [VendingMachineBufferHeader.serialize]
              rw [hsplit1, hsplit2, hsplit3]
              simp

/-- The echo_data length of a decoded `AuthorizedBufferHeader` determines the
byte length of the account that held it: a full parse consumes 13 header bytes
plus the data. -/
theorem authHeader_tryFromSlice_length {bs : List Nat}
    {h : AuthorizedBufferHeader} (hwf : ∀ b ∈ bs, b < 256)
    (hdec : AuthorizedBufferHeader.tryFromSlice bs = some h) :
    bs.length = 13 + h.echo_data.length := by
  rw [authHeader_tryFromSlice_sound hwf hdec]
  exact authHeader_length_serialize h

theorem decodeInstruction_sound {bs : List Nat} {i : EchoInstruction}
    (hwf : ∀ b ∈ bs, b < 256) (h : decodeInstruction bs = some i) :
    encodeInstruction i = bs := by
  cases bs with
  | nil => exact absurd h (by simp [decodeInstruction])
  | cons tag rest =>
    simp only [decodeInstruction] at h
    have hrwf : ∀ b ∈ rest, b < 256 := fun b hb => hwf b (List.mem_cons_of_mem tag hb)
    split_ifs at h with h0 h1 h2 h3 h4
    · subst h0
      cases hv : parseVecU8 rest with
      | none => simp only [hv] at h; exact absurd h (by simp)
      | some dr =>
        obtain ⟨d, r⟩ := dr
        simp only [hv] at h
        split at h
        · rename_i hr
          injection h with hi
          subst hr
          obtain ⟨hsplit, _⟩ := parseVecU8_sound hrwf hv
          rw [← hi]
          simp only [encodeInstruction]
          rw [hsplit]
          simp
        · exact absurd h (by simp)
    · subst h1
      cases hu : parseU64 rest with
      | none => simp only [hu] at h; exact absurd h (by simp)
      | some sr =>
        obtain ⟨s, r1⟩ := sr
        simp only [hu] at h
        cases hu2 : parseU64 r1 with
        | none => simp only [hu2] at h; exact absurd h (by simp)
        | some zr =>
          obtain ⟨z, r⟩ := zr
          simp only [hu2] at h
          split at h
          · rename_i hr
            injection h with hi
            subst hr
            obtain ⟨hsplit1, _⟩ := parseU64_sound hrwf hu
            have hr1wf : ∀ b ∈ r1, b < 256 := fun b hb =>
              hrwf b (hsplit1 ▸ List.mem_append_right _ hb)
            obtain ⟨hsplit2, _⟩ := parseU64_sound hr1wf hu2
            rw [← hi]
            simp only [encodeInstruction]
            rw [hsplit1, hsplit2]
            simp
          · exact absurd h (by simp)
    · subst h2
      cases hv : parseVecU8 rest with
      | none => simp only [hv] at h; exact absurd h (by simp)
      | some dr =>
        obtain ⟨d, r⟩ := dr
        simp only [hv] at h
        split at h
        · rename_i hr
          injection h with hi
          subst hr
          obtain ⟨hsplit, _⟩ := parseVecU8_sound hrwf hv
          rw [← hi]
          simp only [encodeInstruction]
          rw [hsplit]
          simp
        · exact absurd h (by simp)
    · subst h3
      cases hu : parseU64 rest with
      | none => simp only [hu] at h; exact absurd h (by simp)
      | some pr =>
        obtain ⟨p, r1⟩ := pr
        simp only [hu] at h
        cases hu2 : parseU64 r1 with
        | none => simp only [hu2] at h; exact absurd h (by simp)
        | some zr =>
          obtain ⟨z, r⟩ := zr
          simp only [hu2] at h
          split at h
          · rename_i hr
            injection h with hi
            subst hr
            obtain ⟨hsplit1, _⟩ := parseU64_sound hrwf hu
            have hr1wf : ∀ b ∈ r1, b < 256 := fun b hb =>
              hrwf b (hsplit1 ▸ List.mem_append_right _ hb)
            obtain ⟨hsplit2, _⟩ := parseU64_sound hr1wf hu2
            rw [← hi]
            simp only [encodeInstruction]
            rw [hsplit1, hsplit2]
            simp
          · exact absurd h (by simp)
    · subst h4
      cases hv : parseVecU8 rest with
      | none => simp only [hv] at h; exact absurd h (by simp)
      | some dr =>
        obtain ⟨d, r⟩ := dr
        simp only [hv] at h
        split at h
        · rename_i hr
          injection h with hi
          subst hr
          obtain ⟨hsplit, _⟩ := parseVecU8_sound hrwf hv
          rw [← hi]
          simp only [encodeInstruction]
          rw [hsplit]
          simp
        · exact absurd h (by simp)

/-! ### Claims -/

/-- C1: the claim says `Echo(D)` succeeds on every zero-filled non-empty
buffer for every payload `D`, copying `min(len(B), len(D))` bytes. The code
instead panics when the buffer is strictly longer than the payload: the
`echo_data.len() > data.len()` branch calls `copy_from_slice(&data)` with
mismatched slice lengths (processor.rs:66). Witnessed on the zero-filled
3-byte buffer with the 1-byte payload `[7]`, where the spec demands success
with buffer `[7, 0, 0]`. -/
theorem C1_echo_short_payload_panics :
    processEcho [0, 0, 0] [7] = Outcome.panicked := by
  decide

/-- C2: the claim says `AuthorizedEcho(D)` succeeds for payloads of any
length. The code computes `min_of_len` but then copies `data[..min_of_len]`
into the whole `echo_data` slice (processor.rs:159), which panics whenever
`D` is shorter than `echo_data`. Witnessed on a stored header with 2-byte
`echo_data`, matching derived address and signing authority, and the 1-byte
payload `[5]`. -/
theorem C2_authorized_echo_short_payload_panics :
    processAuthorizedEcho [1] (AuthorizedBufferHeader.serialize ⟨7, 9, [0, 0]⟩)
      true (fun _ _ => Except.ok [1]) [5] = Outcome.panicked := by
  decide

/-- C3: the claim states the created record satisfies
`buffer_size = 1 + 8 + 32 + 4 + len(echo_data)`. The code reserves
`buffer_size - 1 - 8 - 4 - 4` data bytes (processor.rs:212), ignoring the
32-byte mint field, so the serialized record occupies `buffer_size + 28`
bytes and can never be written into the `buffer_size`-byte account: at the
integration test's own input (`price = 42`,
`buffer_size = 15 + 4 + 9 = 28`) the arm fails with the borsh write error,
and the record it tried to write violates the size equation. -/
theorem C3_initialize_vending_machine_size_invariant_broken :
    processInitializeVendingMachineEcho [2] (List.replicate 32 0) true true
        ([2], 0) (Except.ok ()) 42 28 = Outcome.err ProgramError.borshIoError
    ∧ (VendingMachineBufferHeader.serialize
        ⟨0, 42, List.replicate 32 0, List.replicate (28 - 1 - 8 - 4 - 4) 0⟩).length ≠ 28 := by
  constructor
  · decide
  · decide

/-- C6: serializing then deserializing an `AuthorizedBufferHeader` or a
`VendingMachineBufferHeader` returns the original record, for every record
whose integer fields fit their wire width, whose mint is 32 bytes, and whose
`echo_data` length fits the `u32` length prefix. -/
theorem C6_header_roundtrip :
    (∀ h : AuthorizedBufferHeader,
      h.buffer_seed < 256 ^ 8 → h.echo_data.length < 256 ^ 4 →
      AuthorizedBufferHeader.tryFromSlice h.serialize = some h)
    ∧ (∀ h : VendingMachineBufferHeader,
      h.price < 256 ^ 8 → h.vending_machine_mint.length = 32 →
      h.echo_data.length < 256 ^ 4 →
      VendingMachineBufferHeader.tryFromSlice h.serialize = some h) :=
  ⟨fun h hs hl => authHeader_roundtrip h hs hl,
   fun h hp hm hl => vmHeader_roundtrip h hp hm hl⟩

/-- C6 witness: the round trip evaluated on concrete records of each kind. -/
theorem C6_header_roundtrip_witness :
    AuthorizedBufferHeader.tryFromSlice
        (AuthorizedBufferHeader.serialize ⟨1, 2, [3]⟩) = some ⟨1, 2, [3]⟩
    ∧ VendingMachineBufferHeader.tryFromSlice
        (VendingMachineBufferHeader.serialize ⟨0, 5, List.replicate 32 0, [7]⟩) =
      some ⟨0, 5, List.replicate 32 0, [7]⟩ :=
  ⟨C6_header_roundtrip.1 ⟨1, 2, [3]⟩ (by decide) (by decide),
   C6_header_roundtrip.2 ⟨0, 5, List.replicate 32 0, [7]⟩ (by decide) (by decide)
     (by decide)⟩

/-- C7: `Echo` on an account that is zero-length or holds a non-zero byte
fails with `EchoError::NonZeroData` (`ProgramError::Custom(1)`), for every
payload; the error return precedes the copy, so the buffer is not written. -/
theorem C7_echo_nonzero_or_empty_fails :
    ∀ buf data : List Nat, (buf.length = 0 ∨ ∃ b ∈ buf, b ≠ 0) →
      processEcho buf data = Outcome.err EchoError.nonZeroData.toProgramError := by
  intro buf data hpre
  unfold processEcho
  rcases hpre with hlen | ⟨b, hb, hbne⟩
  · rw [if_pos hlen]
  · have hne : ¬ buf.length = 0 := by
      intro h0
      rw [List.length_eq_zero] at h0
      subst h0
      exact absurd hb (List.not_mem_nil b)
    rw [if_neg hne, if_pos]
    rw [List.any_eq_true]
    exact ⟨b, hb, by simpa using hbne⟩

/-- C7 witness: a 1-byte buffer holding `1` rejects the payload `[2]`. -/
theorem C7_echo_nonzero_or_empty_fails_witness :
    processEcho [1] [2] = Outcome.err EchoError.nonZeroData.toProgramError :=
  C7_echo_nonzero_or_empty_fails [1] [2]
    (Or.inr ⟨1, by decide, by decide⟩)

/-- C5: with a signing authority, `InitializeAuthorizedEcho` succeeds only
when the supplied buffer address equals the first component of
`find_program_address(["authority", authority, buffer_seed])`; on any other
address it fails with `EchoError::InvalidAuthorizedBuffer` whatever the
`create_account` oracle would have answered — the check precedes the CPI, so
nothing is created or written. -/
theorem C5_initialize_authorized_echo_address_check :
    (∀ (bufKey : Pubkey) (fa : Pubkey × Nat) (cr : Except ProgramError Unit)
      (seed size : Nat) (out : List Nat),
      processInitializeAuthorizedEcho bufKey true fa cr seed size = Outcome.ok out →
      fa.1 = bufKey)
    ∧ (∀ (bufKey : Pubkey) (fa : Pubkey × Nat) (seed size : Nat),
      fa.1 ≠ bufKey →
      ∀ cr : Except ProgramError Unit,
        processInitializeAuthorizedEcho bufKey true fa cr seed size =
          Outcome.err EchoError.invalidAuthorizedBuffer.toProgramError) := by
  constructor
  · intro bufKey fa cr seed size out hok
    by_contra hne
    unfold processInitializeAuthorizedEcho at hok
    rw [if_neg (by simp), if_pos hne] at hok
    exact absurd hok (by simp)
  · intro bufKey fa seed size hne cr
    unfold processInitializeAuthorizedEcho
    rw [if_neg (by simp), if_pos hne]

/-- C5 witness: a mismatched supplied address is rejected with
`InvalidAuthorizedBuffer` (`ProgramError::Custom(4)`). -/
theorem C5_initialize_authorized_echo_address_check_witness :
    processInitializeAuthorizedEcho [8] true ([9], 3) (Except.ok ()) 1 23 =
      Outcome.err EchoError.invalidAuthorizedBuffer.toProgramError :=
  C5_initialize_authorized_echo_address_check.2 [8] ([9], 3) 1 23 (by decide)
    (Except.ok ())

/-- C10: when the supplied address matches and the `create_account` CPI
succeeds, a `buffer_size` below the fixed overhead (13 bytes for
`InitializeAuthorizedEcho`, 17 for `InitializeVendingMachineEcho`) makes the
reserved-length `usize` subtraction underflow, and the arm panics instead of
returning an error value. -/
theorem C10_small_buffer_size_panics :
    (∀ (bufKey : Pubkey) (fa : Pubkey × Nat) (seed size : Nat),
      fa.1 = bufKey → size < 13 →
      processInitializeAuthorizedEcho bufKey true fa (Except.ok ()) seed size =
        Outcome.panicked)
    ∧ (∀ (bufKey mintKey : Pubkey) (fa : Pubkey × Nat) (price size : Nat),
      fa.1 = bufKey → size < 17 →
      processInitializeVendingMachineEcho bufKey mintKey true true fa
        (Except.ok ()) price size = Outcome.panicked) := by
  constructor
  · intro bufKey fa seed size hkey hsize
    unfold processInitializeAuthorizedEcho
    rw [if_neg (by simp), if_neg (by simp [hkey])]
    rw [if_pos (by omega)]
  · intro bufKey mintKey fa price size hkey hsize
    unfold processInitializeVendingMachineEcho
    rw [if_neg (by simp), if_neg (by simp), if_neg (by simp [hkey])]
    rw [if_pos (by omega)]

/-- C10 witness: both initialization arms panic at `buffer_size = 5` with
matching addresses, a signer, and a successful CPI. -/
theorem C10_small_buffer_size_panics_witness :
    processInitializeAuthorizedEcho [1] true ([1], 3) (Except.ok ()) 1 5 =
        Outcome.panicked
    ∧ processInitializeVendingMachineEcho [1] [2] true true ([1], 0)
        (Except.ok ()) 42 5 = Outcome.panicked :=
  ⟨C10_small_buffer_size_panics.1 [1] ([1], 3) 1 5 rfl (by decide),
   C10_small_buffer_size_panics.2 [1] [2] ([1], 0) 42 5 rfl (by decide)⟩

/-- C9: any byte sequence that is not the borsh encoding of one of the five
instructions makes `process_instruction` return
`ProgramError::InvalidInstructionData`, uniformly in the environment — the
decode happens before any account is read or written; the decoder itself is a
total function, so no input makes it panic. -/
theorem C9_invalid_instruction_data :
    ∀ (env : ProcessorEnv) (bs : List Nat), (∀ b ∈ bs, b < 256) →
      (¬ ∃ i, encodeInstruction i = bs) →
      process_instruction env bs = Outcome.err ProgramError.invalidInstructionData := by
  intro env bs hwf hne
  cases hdec : decodeInstruction bs with
  | none => unfold process_instruction; rw [hdec]
  | some i => exact absurd ⟨i, decodeInstruction_sound hwf hdec⟩ hne

/-- C9 witness: the 1-byte buffer `[5]` (an unknown discriminant) is rejected
in the sample environment. -/
theorem C9_invalid_instruction_data_witness :
    process_instruction sampleEnv [5] =
      Outcome.err ProgramError.invalidInstructionData := by
  apply C9_invalid_instruction_data sampleEnv [5] (by decide)
  rintro ⟨i, hi⟩
  cases i <;> simp [encodeInstruction, natToLEBytes] at hi

/-- C4: the `spl_token::burn` CPI strictly precedes the buffer mutation in
`VendingMachineEcho`. First conjunct: when every precondition holds and the
burn fails with `e`, the arm returns `Err(e)` (so nothing was written —
mutation only happens on an `ok` outcome). Second conjunct: a successful arm
run implies the burn succeeded, i.e. the zero-fill/copy/re-encode never
happen under a failed burn. -/
theorem C4_vending_machine_burn_gates_mutation :
    (∀ (key : Pubkey) (bufData : List Nat)
      (cpa : Nat → Nat → Except ProgramError Pubkey)
      (h : VendingMachineBufferHeader) (e : ProgramError) (data : List Nat),
      VendingMachineBufferHeader.tryFromSlice bufData = some h →
      cpa h.price h.bump_seed = Except.ok key →
      processVendingMachineEcho key bufData true true true true cpa
        (Except.error e) data = Outcome.err e)
    ∧ (∀ (key : Pubkey) (bufData : List Nat) (sign w1 w2 w3 : Bool)
      (cpa : Nat → Nat → Except ProgramError Pubkey)
      (burnResult : Except ProgramError Unit) (data out : List Nat),
      processVendingMachineEcho key bufData sign w1 w2 w3 cpa burnResult data =
        Outcome.ok out →
      burnResult = Except.ok ()) := by
  constructor
  · intro key bufData cpa h e data hdec hcpa
    unfold processVendingMachineEcho
    simp only [hdec, hcpa]
    simp
  · intro key bufData sign w1 w2 w3 cpa burnResult data out hok
    unfold processVendingMachineEcho at hok
    split_ifs at hok
    split at hok
    · exact Outcome.noConfusion hok
    · rename_i vb hvb
      split at hok
      · exact Outcome.noConfusion hok
      · rename_i k hk
        split_ifs at hok
        split at hok
        · exact Outcome.noConfusion hok
        · rename_i u
          cases u
          rfl

/-- C4 witness: a concrete stored record, matching derived address, signing
user, writable accounts, and a burn failing with `Custom(99)`: the arm
returns exactly that error. -/
theorem C4_vending_machine_burn_gates_mutation_witness :
    processVendingMachineEcho [3]
        (VendingMachineBufferHeader.serialize ⟨0, 5, List.replicate 32 0, [0]⟩)
        true true true true (fun _ _ => Except.ok [3])
        (Except.error (ProgramError.custom 99)) [7] =
      Outcome.err (ProgramError.custom 99) :=
  C4_vending_machine_burn_gates_mutation.1 [3]
    (VendingMachineBufferHeader.serialize ⟨0, 5, List.replicate 32 0, [0]⟩)
    (fun _ _ => Except.ok [3]) ⟨0, 5, List.replicate 32 0, [0]⟩
    (ProgramError.custom 99) [7] (by decide) rfl

theorem serializeIntoBuffer_exact {enc buf : List Nat}
    (h : enc.length = buf.length) :
    serializeIntoBuffer enc buf = Outcome.ok enc := by
  unfold serializeIntoBuffer
  rw [if_pos (le_of_eq h), h, List.drop_length, List.append_nil]

/-- C8: a successful `AuthorizedEcho` or `VendingMachineEcho` writes back the
borsh encoding of a record whose header scalars (`bump_seed`/`buffer_seed`,
resp. `bump_seed`/`price`/mint) are those decoded from the account, and whose
`echo_data` has the same length as before; only the `echo_data` contents
change. -/
theorem C8_updates_preserve_header_fields :
    (∀ (key : Pubkey) (bufData : List Nat) (sign : Bool)
      (cpa : Nat → Nat → Except ProgramError Pubkey)
      (data : List Nat) (h : AuthorizedBufferHeader) (out : List Nat),
      (∀ b ∈ bufData, b < 256) →
      AuthorizedBufferHeader.tryFromSlice bufData = some h →
      processAuthorizedEcho key bufData sign cpa data = Outcome.ok out →
      ∃ d : List Nat,
        out = AuthorizedBufferHeader.serialize ⟨h.bump_seed, h.buffer_seed, d⟩ ∧
        d.length = h.echo_data.length)
    ∧ (∀ (key : Pubkey) (bufData : List Nat) (sign w1 w2 w3 : Bool)
      (cpa : Nat → Nat → Except ProgramError Pubkey)
      (burnResult : Except ProgramError Unit) (data : List Nat)
      (h : VendingMachineBufferHeader) (out : List Nat),
      (∀ b ∈ bufData, b < 256) →
      VendingMachineBufferHeader.tryFromSlice bufData = some h →
      processVendingMachineEcho key bufData sign w1 w2 w3 cpa burnResult data =
        Outcome.ok out →
      ∃ d : List Nat,
        out = VendingMachineBufferHeader.serialize
          ⟨h.bump_seed, h.price, h.vending_machine_mint, d⟩ ∧
        d.length = h.echo_data.length) := by
  constructor
  · intro key bufData sign cpa data h out hwf hdec hok
    unfold processAuthorizedEcho at hok
    split_ifs at hok
    simp only [hdec] at hok
    split at hok
    · exact Outcome.noConfusion hok
    · rename_i k hk
      split_ifs at hok with hkey hmin
      have hm : min h.echo_data.length data.length = h.echo_data.length := by
        simpa using hmin
      have hle : h.echo_data.length ≤ data.length := by omega
      have hbuf : bufData = h.serialize :=
        authHeader_tryFromSlice_sound hwf hdec
      have hdlen : (data.take (min h.echo_data.length data.length)).length =
          h.echo_data.length := by
        rw [List.length_take]
        omega
      refine ⟨data.take (min h.echo_data.length data.length), ?_, hdlen⟩
      rw [serializeIntoBuffer_exact ?_] at hok
      · exact (Outcome.ok.injEq _ _ ▸ hok).symm
      · rw [authHeader_length_serialize, hdlen, hbuf,
          authHeader_length_serialize]
  · intro key bufData sign w1 w2 w3 cpa burnResult data h out hwf hdec hok
    unfold processVendingMachineEcho at hok
    split_ifs at hok
    simp only [hdec] at hok
    split at hok
    · exact Outcome.noConfusion hok
    · rename_i k hk
      split_ifs at hok with hkey hmin
      · split at hok
        · exact Outcome.noConfusion hok
        · exact Outcome.noConfusion hok
      split at hok
      · exact Outcome.noConfusion hok
      · rename_i u
        have hm : min h.echo_data.length data.length = h.echo_data.length := by
          simpa using hmin
        have hbuf : bufData = h.serialize :=
          vmHeader_tryFromSlice_sound hwf hdec
        have hdlen : (data.take (min h.echo_data.length data.length)).length =
            h.echo_data.length := by
          rw [List.length_take]
          omega
        refine ⟨data.take (min h.echo_data.length data.length), ?_, hdlen⟩
        rw [serializeIntoBuffer_exact ?_] at hok
        · exact (Outcome.ok.injEq _ _ ▸ hok).symm
        · rw [vmHeader_length_serialize, hdlen, hbuf,
            vmHeader_length_serialize]

/-- C8 witness: updating a stored 1-byte `echo_data` record with payload `[7]`
succeeds and writes a record with the same header scalars and a 1-byte
`echo_data`. -/
theorem C8_updates_preserve_header_fields_witness :
    ∃ d : List Nat,
      AuthorizedBufferHeader.serialize ⟨1, 2, [7]⟩ =
        AuthorizedBufferHeader.serialize ⟨1, 2, d⟩ ∧ d.length = 1 :=
  C8_updates_preserve_header_fields.1 [1]
    (AuthorizedBufferHeader.serialize ⟨1, 2, [0]⟩) true
    (fun _ _ => Except.ok [1]) [7] ⟨1, 2, [0]⟩
    (AuthorizedBufferHeader.serialize ⟨1, 2, [7]⟩) (by decide) (by decide)
    (by decide)
